import Mathlib

/-!
Verification of the RandomFS randomized block storage engine against its
natural-language specification.

The Go sources are shallowly embedded:
* bytes are `Nat` (Go `byte` values are < 256; `^^^` is Go `^` on bytes),
* Go slices become `List`,
* Go maps become association lists (`List (κ × ν)`); map iteration order,
  which Go leaves unspecified, is modelled as the list order,
* fallible or panicking Go code returns `GoResult`,
* external collaborators (crypto/rand, crypto/sha256, the IPFS content
  store hash) are parameters of the embedding: randomness is an oracle
  stream, content hashes are an arbitrary hash-function parameter.
-/

set_option autoImplicit false

/-- Outcome of running a piece of Go code: a normal value, an error value
returned to the caller, or a runtime panic. -/
inductive GoResult (α : Type) where
  | ok : α → GoResult α
  | err : String → GoResult α
  | panicked : String → GoResult α
deriving DecidableEq, Repr

instance : Monad GoResult where
  pure := GoResult.ok
  bind := fun r f =>
    match r with
    | .ok a => f a
    | .err e => .err e
    | .panicked m => .panicked m

/-- Association-list lookup, modelling Go map read `m[k]` (comma-ok form). -/
def lookupA {κ ν : Type} [DecidableEq κ] (l : List (κ × ν)) (k : κ) : Option ν :=
  match l with
  | [] => none
  | (k', v) :: rest => if k' = k then some v else lookupA rest k

/-- Go map read `m[k]` that yields the zero value on a missing key. -/
def lookupD {κ ν : Type} [DecidableEq κ] (l : List (κ × ν)) (k : κ) (dflt : ν) : ν :=
  (lookupA l k).getD dflt

/-- Go map write `m[k] = v`: overwrite in place if the key is present,
otherwise the new key joins the iteration order (modelled at the end). -/
def insertA {κ ν : Type} [DecidableEq κ] (l : List (κ × ν)) (k : κ) (v : ν) : List (κ × ν) :=
  match l with
  | [] => [(k, v)]
  | (k', v') :: rest => if k' = k then (k, v) :: rest else (k', v') :: insertA rest k v

/-- The keys of an association list, in iteration order. -/
def keysA {κ ν : Type} (l : List (κ × ν)) : List κ :=
  l.map Prod.fst

/-- Structural index-carrying map (kernel-friendly replacement for
`List.mapIdx`), used to model Go loops `for i := range xs`. -/
def mapIdxGo {α β : Type} (f : Nat → α → β) : Nat → List α → List β
  | _, [] => []
  | i, a :: as => f i a :: mapIdxGo f (i + 1) as

namespace RandomfsCore

/-! ## randomfs-core/randomfs.go — constants and the block codec -/

/-- 1KB blocks for small files (`NanoBlockSize`). -/
def NanoBlockSize : Nat := 1024

/-- 64KB blocks for medium files (`MiniBlockSize`). -/
def MiniBlockSize : Nat := 65536

/-- 1MB blocks for large files (`BlockSize`). -/
def BlockSize : Nat := 1048576

/-- 100KB threshold (`NanoThreshold`). -/
def NanoThreshold : Nat := 100 * 1024

/-- 10MB threshold (`MiniThreshold`). -/
def MiniThreshold : Nat := 10 * 1024 * 1024

/-- `selectBlockSize` from randomfs.go: pick the block size tier from the
file length. -/
def selectBlockSize (fileSize : Nat) : Nat :=
  if fileSize ≤ NanoThreshold then NanoBlockSize
  else if fileSize ≤ MiniThreshold then MiniBlockSize
  else BlockSize

/-- Fueled chunking loop of `generateRandomBlocks`
(`for offset := 0; offset < len(data); offset += blockSize`); the fuel is
`data.length`, enough because the source always calls it with
`blockSize ≥ 1024 > 0`. -/
def chunkListAux : Nat → Nat → List Nat → List (List Nat)
  | 0, _, _ => []
  | _, _, [] => []
  | fuel + 1, bs, data => data.take bs :: chunkListAux fuel bs (data.drop bs)

/-- The chunks `data[offset:end]` taken by `generateRandomBlocks`. -/
def chunkList (bs : Nat) (data : List Nat) : List (List Nat) :=
  chunkListAux data.length bs data

/-- The XOR loop of `generateRandomBlocks`: starting from the freshly drawn
random block `mask` (length `blockSize`), XOR the chunk into its first
`len(chunk)` bytes (`randomBlock[i] ^= chunk[i]`). -/
def xorInto (mask chunk : List Nat) : List Nat :=
  mapIdxGo (fun i m => m ^^^ chunk.getD i 0) 0 mask

/-- `generateRandomBlocks` from randomfs.go. `crypto/rand.Read` is modelled
by the oracle `rnd`: `rnd i` is the random block drawn for chunk `i`
(length `bs` in every real execution). Each stored block is the chunk
XORed into a fresh random mask; the mask itself is not kept anywhere. -/
def generateRandomBlocks (data : List Nat) (bs : Nat) (rnd : Nat → List Nat) :
    List (List Nat) :=
  mapIdxGo (fun i chunk => xorInto (rnd i) chunk) 0 (chunkList bs data)

/-- `deRandomizeBlock` from randomfs.go: `result := make([]byte, dataSize);
copy(result, block[:dataSize])`. The slice expression panics when
`dataSize > len(block)`; otherwise the result is the plain truncation —
no XOR is undone. -/
def deRandomizeBlock (block : List Nat) (dataSize : Nat) : GoResult (List Nat) :=
  if dataSize ≤ block.length then .ok (block.take dataSize)
  else .panicked "slice bounds out of range"

end RandomfsCore

namespace RandomfsCore

/-! ## randomfs-core/randomfs.go — BlockCache

`BlockCache` holds `blocks map[string][]byte`, `maxSize int64` and
`currentSize int64`. Hashes (IPFS hash strings) are modelled as `Nat`;
sizes keep Go's signed `int64` as `Int`. The map is an association list
whose order stands for Go's unspecified iteration order. -/

structure BlockCache where
  blocks : List (Nat × List Nat)
  maxSize : Int
  currentSize : Int
deriving DecidableEq, Repr

/-- Sum of the byte lengths of the blocks currently held in the cache map. -/
def mapSum (l : List (Nat × List Nat)) : Int :=
  match l with
  | [] => 0
  | (_, b) :: rest => (b.length : Int) + mapSum rest

/-- The eviction loop of `evictOldestBlocks`:
`for hash, block := range blocks` — delete the entry, subtract its length,
stop once `currentSize <= target`. Iteration order is the list order. It
returns the surviving entries and the new `currentSize`. -/
def evictLoop : List (Nat × List Nat) → Int → Int → List (Nat × List Nat) × Int
  | [], size, _ => ([], size)
  | (_, b) :: rest, size, target =>
      if size - b.length ≤ target then (rest, size - b.length)
      else evictLoop rest (size - b.length) target

/-- `evictOldestBlocks` from randomfs.go: "Simple implementation - remove
half the cache", target `maxSize / 2`. -/
def evictOldestBlocks (c : BlockCache) : BlockCache :=
  let res := evictLoop c.blocks c.currentSize (c.maxSize / 2)
  { c with blocks := res.1, currentSize := res.2 }

/-- The cache portion of `storeBlock` (randomfs.go lines 309-318):
`blocks[hash] = block`, `currentSize += len(block)`, then eviction if the
size exceeds `maxSize`. -/
def cachePut (c : BlockCache) (h : Nat) (b : List Nat) : BlockCache :=
  let c1 : BlockCache :=
    { c with blocks := insertA c.blocks h b,
             currentSize := c.currentSize + b.length }
  if c1.maxSize < c1.currentSize then evictOldestBlocks c1 else c1

/-- The cache read in `retrieveBlock`: a pure lookup, no mutation (a miss
falls through to IPFS without filling the cache, and a hit records no
recency information). -/
def cacheGet (c : BlockCache) (h : Nat) : Option (List Nat) :=
  lookupA c.blocks h

/-- One abstract cache operation: `put` is a `storeBlock` call storing the
given block bytes (the hash comes from the content store), `get` is a
`retrieveBlock` cache probe. -/
inductive CacheOp where
  | put : List Nat → CacheOp
  | get : Nat → CacheOp
deriving DecidableEq, Repr

/-- Run one cache operation; `hf` is the content-store hash function that
`addToIPFS` implements. `get` never mutates the cache. -/
def stepCache (hf : List Nat → Nat) (c : BlockCache) : CacheOp → BlockCache
  | .put b => cachePut c (hf b) b
  | .get _ => c

/-- Run a sequence of cache operations. -/
def runCache (hf : List Nat → Nat) (c : BlockCache) (ops : List CacheOp) : BlockCache :=
  ops.foldl (stepCache hf) c

/-- The empty cache `NewRandomFS` builds: empty map, `currentSize` 0. -/
def emptyCache (ms : Int) : BlockCache :=
  { blocks := [], maxSize := ms, currentSize := 0 }

/-- Does every `put` in the sequence store a hash that is absent from the
cache map at that moment (no overwrites)? -/
def freshPuts (hf : List Nat → Nat) : BlockCache → List CacheOp → Bool
  | _, [] => true
  | c, .get _ :: rest => freshPuts hf c rest
  | c, .put b :: rest =>
      (lookupA c.blocks (hf b)).isNone && freshPuts hf (cachePut c (hf b) b) rest

/-! ### Ghost instrumentation for the LRU question

The source cache stores no recency data at all, so "least recently used"
can only be judged against the operation history. `LRUTrace` runs the
same `cachePut`/`cacheGet` code and additionally records, outside the
cache, the last access time of each hash (both `put` and `get` hits count
as an access, as the spec's LRU demands). -/

structure LRUTrace where
  cache : BlockCache
  access : List (Nat × Nat)
  clock : Nat
deriving DecidableEq, Repr

/-- Record an access of hash `h` at time `t`. -/
def touchAccess (l : List (Nat × Nat)) (h t : Nat) : List (Nat × Nat) :=
  insertA l h t

/-- One instrumented step: the cache evolves exactly as in the source;
the access log is ghost state. -/
def stepLRU (hf : List Nat → Nat) (s : LRUTrace) : CacheOp → LRUTrace
  | .put b =>
      { cache := cachePut s.cache (hf b) b,
        access := touchAccess s.access (hf b) s.clock,
        clock := s.clock + 1 }
  | .get h =>
      { cache := s.cache,
        access := if (cacheGet s.cache h).isSome then touchAccess s.access h s.clock
                  else s.access,
        clock := s.clock + 1 }

/-- Run a sequence of operations with access instrumentation. -/
def runLRU (hf : List Nat → Nat) (s : LRUTrace) (ops : List CacheOp) : LRUTrace :=
  ops.foldl (stepLRU hf) s

/-- Initial instrumented state over an empty cache. -/
def emptyLRU (ms : Int) : LRUTrace :=
  { cache := emptyCache ms, access := [], clock := 0 }

/-! ## randomfs-core/randomfs.go — store/retrieve pipeline

`addToIPFS` hands bytes to the external content store and returns their
content hash; it is modelled by a hash-function parameter (`bhash` for
block bytes, `rhash` for marshalled representations) plus a map holding
what was stored. Representations go through `json.Marshal`/`Unmarshal`,
which the spec requires to round-trip losslessly, so the model keeps them
structured in their own map instead of as bytes. -/

structure FileRep where
  fileName : String
  fileSize : Nat
  blockHashes : List Nat
  blockSize : Nat
  timestamp : Nat
  contentType : String
  version : String
deriving DecidableEq, Repr

structure CoreState where
  ipfsBlocks : List (Nat × List Nat)
  ipfsReps : List (Nat × FileRep)
  cache : BlockCache
deriving DecidableEq, Repr

/-- A `rd://` URL as built by `StoreFile` (the representation hash lives in
the abstract content-hash space, `Nat`). -/
structure RandomURLCore where
  scheme : String
  host : String
  version : String
  fileName : String
  fileSize : Nat
  repHash : Nat
  timestamp : Nat
deriving DecidableEq, Repr

/-- `filepath.Base`: last element of the path after trailing slashes are
removed; "." for the empty path, "/" for all-slashes. -/
def filepathBase (s : String) : String :=
  let chars := s.toList
  if chars = [] then "."
  else
    let trimmed := (chars.reverse.dropWhile (fun c => c = '/')).reverse
    if trimmed = [] then "/"
    else String.mk ((trimmed.reverse.takeWhile (fun c => c ≠ '/')).reverse)

/-- `storeBlock` from randomfs.go: add the block to IPFS (obtaining its
content hash) and cache it locally with eviction. -/
def storeBlock (bhash : List Nat → Nat) (st : CoreState) (b : List Nat) :
    Nat × CoreState :=
  let h := bhash b
  (h, { st with ipfsBlocks := insertA st.ipfsBlocks h b,
                cache := cachePut st.cache h b })

/-- The block-storing loop of `StoreFile`: store each generated block,
collecting the hashes in order. -/
def storeBlocksLoop (bhash : List Nat → Nat) (st : CoreState) :
    List (List Nat) → List Nat × CoreState
  | [] => ([], st)
  | b :: rest =>
      let res := storeBlock bhash st b
      let res' := storeBlocksLoop bhash res.2 rest
      (res.1 :: res'.1, res'.2)

/-- `StoreFile` from randomfs.go: choose the block-size tier, generate the
randomized blocks (random masks drawn from the oracle `rnd`), store them,
then build and store the `FileRepresentation` and return the `rd://` URL.
`now` models `time.Now().Unix()`; the `Stats` counters are omitted (no
claim mentions them). -/
def StoreFile (bhash : List Nat → Nat) (rhash : FileRep → Nat) (st : CoreState)
    (filename : String) (data : List Nat) (contentType : String) (now : Nat)
    (rnd : Nat → List Nat) : RandomURLCore × CoreState :=
  let bs := selectBlockSize data.length
  let blocks := generateRandomBlocks data bs rnd
  let stored := storeBlocksLoop bhash st blocks
  let rep : FileRep :=
    { fileName := filepathBase filename, fileSize := data.length,
      blockHashes := stored.1, blockSize := bs, timestamp := now,
      contentType := contentType, version := "v4" }
  let rh := rhash rep
  let st' : CoreState := { stored.2 with ipfsReps := insertA stored.2.ipfsReps rh rep }
  ({ scheme := "rd", host := "randomfs", version := "v4",
     fileName := rep.fileName, fileSize := data.length, repHash := rh,
     timestamp := now }, st')

/-- `retrieveBlock` from randomfs.go: cache first, IPFS on a miss; a hash
absent from both is the content store's not-found error. -/
def retrieveBlock (st : CoreState) (h : Nat) : GoResult (List Nat) :=
  match cacheGet st.cache h with
  | some b => .ok b
  | none =>
      match lookupA st.ipfsBlocks h with
      | some b => .ok b
      | none => .err "IPFS cat failed"

/-- The reassembly loop of `RetrieveFile`: every block but the last is
de-randomized at the full `BlockSize` of the representation; the last one
at `FileSize - reconstructed.Len()` (a negative remainder would make the
Go slice expression panic). -/
def rebuildBlocks (st : CoreState) (bs fileSize : Nat) :
    List Nat → List Nat → GoResult (List Nat)
  | [], acc => .ok acc
  | [h], acc => do
      let b ← retrieveBlock st h
      if acc.length ≤ fileSize then
        let d ← deRandomizeBlock b (fileSize - acc.length)
        pure (acc ++ d)
      else .panicked "slice bounds out of range"
  | h :: h' :: rest, acc => do
      let b ← retrieveBlock st h
      let d ← deRandomizeBlock b bs
      rebuildBlocks st bs fileSize (h' :: rest) (acc ++ d)

/-- `RetrieveFile` from randomfs.go: fetch and unmarshal the
representation, then fetch and de-randomize every block in order. -/
def RetrieveFile (st : CoreState) (repHash : Nat) :
    GoResult (List Nat × FileRep) :=
  match lookupA st.ipfsReps repHash with
  | none => .err "failed to retrieve representation"
  | some rep => do
      let out ← rebuildBlocks st rep.blockSize rep.fileSize rep.blockHashes []
      pure (out, rep)

/-! ## randomfs-core/randomfs.go — ParseRandomURL -/

/-- A parsed `rd://` URL as `ParseRandomURL` builds it (string fields as in
the Go struct; `FileSize`/`Timestamp` are `int64`). -/
structure RandomURL where
  scheme : String
  host : String
  version : String
  fileName : String
  fileSize : Int
  repHash : String
  timestamp : Int
deriving DecidableEq, Repr

/-- `strings.Split(s, "/")`: split at every separator, keeping empty
segments; the empty input gives one empty segment. -/
def splitOnChar (sep : Char) : List Char → List (List Char)
  | [] => [[]]
  | c :: rest =>
      match splitOnChar sep rest with
      | [] => [[c]]
      | s :: ss => if c = sep then [] :: s :: ss else (c :: s) :: ss

/-- `strings.Trim(s, "/")`: remove leading and trailing slashes. -/
def trimSlash (l : List Char) : List Char :=
  ((l.dropWhile (fun c => c = '/')).reverse.dropWhile (fun c => c = '/')).reverse

/-- Model of `net/url.Parse` restricted to what `ParseRandomURL` reads
(`Scheme`, `Host`, `Path`) on simple URLs without query, fragment or
userinfo: `scheme://host/path` splits into the three parts, `scheme:rest`
without `//` has an empty `Path` (opaque form), and an input without `:`
is a relative reference whose path is the input itself. -/
def goURLParse (l : List Char) : List Char × List Char × List Char :=
  let scheme := l.takeWhile (fun c => c ≠ ':')
  let rest := l.dropWhile (fun c => c ≠ ':')
  match rest with
  | ':' :: '/' :: '/' :: after =>
      (scheme, after.takeWhile (fun c => c ≠ '/'), after.dropWhile (fun c => c ≠ '/'))
  | ':' :: _ => (scheme, [], [])
  | _ => ([], [], l)

/-- Is `c` an ASCII decimal digit? -/
def isDigitChar (c : Char) : Bool :=
  '0' ≤ c && c ≤ '9'

/-- `strconv.ParseInt(s, 10, 64)`: optional sign, at least one digit, all
digits, and the value must fit in a signed 64-bit integer. -/
def parseInt64 (l : List Char) : Option Int :=
  let signed : Int × List Char :=
    match l with
    | '+' :: r => (1, r)
    | '-' :: r => (-1, r)
    | _ => (1, l)
  let ds := signed.2
  if ds = [] then none
  else if ¬ ds.all isDigitChar then none
  else
    let v : Nat := ds.foldl (fun a c => a * 10 + (c.toNat - 48)) 0
    if signed.1 = 1 then
      if v ≤ 2 ^ 63 - 1 then some v else none
    else
      if v ≤ 2 ^ 63 then some (-(v : Int)) else none

/-- `ParseRandomURL` from randomfs.go. After the scheme check, the trimmed
path is split on `/`; the guard rejects fewer than 4 segments, then the
code reads segments 0,1,2,3 and also segment 4 — the latter with an
explicit bounds check in the model, since Go panics there when exactly 4
segments are present. -/
def ParseRandomURL (rawURL : String) : GoResult RandomURL :=
  let parsed := goURLParse rawURL.toList
  if String.mk parsed.1 ≠ "rd" then .err "invalid scheme"
  else
    let parts := splitOnChar '/' (trimSlash parsed.2.2)
    if parts.length < 4 then .err "invalid rd:// URL format"
    else
      match parseInt64 (parts.getD 1 []) with
      | none => .err "invalid file size"
      | some fileSize =>
          match parseInt64 (parts.getD 3 []) with
          | none => .err "invalid timestamp"
          | some timestamp =>
              if 4 < parts.length then
                .ok { scheme := String.mk parsed.1,
                      host := String.mk parsed.2.1,
                      version := String.mk (parts.getD 0 []),
                      fileName := String.mk (parts.getD 2 []),
                      fileSize := fileSize,
                      repHash := String.mk (parts.getD 4 []),
                      timestamp := timestamp }
              else .panicked "index out of range"

end RandomfsCore

/-! ## Shared pieces of the two research models

`model-anonymous-library/main.go` and `model-connector-privacy/main.go`
contain identical `xor`, popularity-increment and `updateTop100` code
(one over `BlockHash`, one over `[32]byte`); they are embedded once,
generically. SHA-256 digests are byte lists produced by a hash-function
parameter `sha`. -/

/-- The all-zero `BlockHash{}` / `[32]byte{}`. -/
def zeroHash : List Nat := List.replicate 32 0

/-- The all-zero `Block{}` (4096 bytes). -/
def zeroBlock : List Nat := List.replicate 4096 0

/-- `xor(a, b Block) Block`: byte-wise XOR over the fixed block length
(all call sites pass equal-length 4096-byte blocks). -/
def xorBlock (a b : List Nat) : List Nat :=
  mapIdxGo (fun i x => x ^^^ b.getD i 0) 0 a

/-- `blockPopularity[h]++`: increment with Go's zero default on a missing
key. -/
def incA (l : List (List Nat × Nat)) (k : List Nat) : List (List Nat × Nat) :=
  insertA l k (lookupD l k 0 + 1)

/-- Comparison used by `sort.Slice` in `updateTop100`:
`sortedBlocks[i].popularity > sortedBlocks[j].popularity`, i.e. sort by
popularity in non-increasing order. -/
def popGE {α : Type} (a b : α × Nat) : Prop := b.2 ≤ a.2

instance {α : Type} : DecidableRel (@popGE α) :=
  fun a b => inferInstanceAs (Decidable (b.2 ≤ a.2))

instance {α : Type} : IsTotal (α × Nat) popGE :=
  ⟨fun a b => le_total b.2 a.2⟩

instance {α : Type} : IsTrans (α × Nat) popGE :=
  ⟨fun _ _ _ h1 h2 => le_trans h2 h1⟩

/-- `updateTop100` from both research models: collect the
`blockPopularity` entries, sort them by popularity descending, keep the
hashes of the first `min 100 n` of them. Go's `sort.Slice` is unstable
and map iteration order is arbitrary, so any sorted rearrangement is a
faithful model; insertion sort over the list order is used. -/
def updateTop100 {α : Type} [DecidableEq (α × Nat)] (l : List (α × Nat)) : List α :=
  ((l.insertionSort popGE).take 100).map Prod.fst

namespace AnonLibrary

/-! ## research/models/model-anonymous-library/main.go -/

/-- `randInt(max)`: one byte from `crypto/rand`, reduced mod `max`. The
random source is the oracle `rnd` (byte stream), `rc` the position. -/
def randInt (rnd : Nat → Nat) (rc maxv : Nat) : Nat :=
  rnd rc % 256 % maxv

/-- `selectPopularBlocks`: panics when the Top-100 pool has fewer than two
entries; otherwise two independent uniform draws (no distinctness check,
no retry). Returns the drawn pair and the advanced random-stream
position. -/
def selectPopularBlocks (pool : List (List Nat)) (rnd : Nat → Nat) (rc : Nat) :
    GoResult (List Nat × List Nat) × Nat :=
  if pool.length < 2 then (.panicked "Top 100 pool not populated", rc)
  else
    (.ok (pool.getD (randInt rnd rc pool.length) zeroHash,
          pool.getD (randInt rnd (rc + 1) pool.length) zeroHash), rc + 2)

/-- The decimal digits of `n` as ASCII bytes (for the `"%s:%d"` key
material of `deterministicEncrypt`). -/
def decimalDigits (n : Nat) : List Nat :=
  (Nat.toDigits 10 n).map Char.toNat

/-- `deterministicEncrypt`: key = SHA-256 of `password ++ ":" ++ position`
(58 is ASCII `:`); XOR the block with the 32-byte key repeated. -/
def deterministicEncrypt (sha : List Nat → List Nat) (block pw : List Nat)
    (position : Nat) : List Nat :=
  let key := sha (pw ++ [58] ++ decimalDigits position)
  mapIdxGo (fun i b => b ^^^ key.getD (i % 32) 0) 0 block

/-- `deterministicDecrypt`: identical XOR with the same derived key. -/
def deterministicDecrypt (sha : List Nat → List Nat) (block pw : List Nat)
    (position : Nat) : List Nat :=
  let key := sha (pw ++ [58] ++ decimalDigits position)
  mapIdxGo (fun i b => b ^^^ key.getD (i % 32) 0) 0 block

/-- `chunkFile`: `numBlocks = ceil(len/4096)` blocks, each the
corresponding slice of the data zero-padded to 4096 bytes. -/
def chunkFile (data : List Nat) : List (List Nat) :=
  (List.range ((data.length + 4096 - 1) / 4096)).map fun i =>
    let chunk := (data.drop (4096 * i)).take 4096
    chunk ++ List.replicate (4096 - chunk.length) 0

structure ConnectorDescriptor where
  position : Nat
  connectorHash : List Nat
  targetHash : List Nat
  randomizerHash : List Nat
deriving DecidableEq, Repr

structure FileManifest where
  fileName : String
  fileSize : Nat
  fileHash : List Nat
  blockCount : Nat
  connectorBlocks : List ConnectorDescriptor
  createdAt : Nat
  popularityScore : Nat
deriving DecidableEq, Repr

/-- The global state of the model: `networkStorage`, `blockPopularity`,
`top100Blocks`, `manifestRegistry`, plus the random-stream position. -/
structure AMLState where
  networkStorage : List (List Nat × List Nat)
  blockPopularity : List (List Nat × Nat)
  top100Blocks : List (List Nat)
  manifestRegistry : List (List Nat × FileManifest)
  rc : Nat
deriving DecidableEq, Repr

/-- Accumulator of the block-storing loop in `StoreFile`. -/
structure StoreAcc where
  storage : List (List Nat × List Nat)
  popularity : List (List Nat × Nat)
  rc : Nat
  descs : List ConnectorDescriptor
  newCount : Nat
deriving DecidableEq, Repr

/-- The per-block loop of `StoreFile`: an encrypted block already on the
network is recorded with zero mask hashes at no cost; otherwise two
popular blocks are drawn (propagating the empty-pool panic), the
connector block is XOR-built and stored, popularity is updated
(`blockPopularity[connectorHash] = 1`, target and randomizer
incremented), and the descriptor appended. -/
def storeLoop (sha : List Nat → List Nat) (rnd : Nat → Nat)
    (pool : List (List Nat)) : List (List Nat) → Nat → StoreAcc → GoResult StoreAcc
  | [], _, acc => .ok acc
  | enc :: rest, i, acc =>
      let ehash := sha enc
      match lookupA acc.storage ehash with
      | some _ =>
          storeLoop sha rnd pool rest (i + 1)
            { acc with descs := acc.descs ++ [⟨i, ehash, zeroHash, zeroHash⟩] }
      | none =>
          match (selectPopularBlocks pool rnd acc.rc).1 with
          | .panicked m => .panicked m
          | .err e => .err e
          | .ok tr =>
              let conn := xorBlock enc (xorBlock (lookupD acc.storage tr.1 zeroBlock)
                                                 (lookupD acc.storage tr.2 zeroBlock))
              let ch := sha conn
              storeLoop sha rnd pool rest (i + 1)
                { storage := insertA acc.storage ch conn,
                  popularity := incA (incA (insertA acc.popularity ch 1) tr.1) tr.2,
                  rc := acc.rc + 2,
                  descs := acc.descs ++ [⟨i, ch, tr.1, tr.2⟩],
                  newCount := acc.newCount + 1 }

/-- `StoreFile` from model-anonymous-library/main.go: a registry hit is the
perfect-deduplication path (bump `PopularityScore`, zero new blocks);
otherwise chunk, deterministically encrypt, store every block through the
connector model and register the manifest with `PopularityScore` 1. -/
def StoreFile (sha : List Nat → List Nat) (rnd : Nat → Nat) (st : AMLState)
    (fileName : String) (data pw : List Nat) (now : Nat) :
    GoResult (Nat × FileManifest × AMLState) :=
  let fileHash := sha data
  match lookupA st.manifestRegistry fileHash with
  | some m =>
      let m' := { m with popularityScore := m.popularityScore + 1 }
      .ok (0, m', { st with manifestRegistry := insertA st.manifestRegistry fileHash m' })
  | none =>
      let blocks := chunkFile data
      let encrypted := mapIdxGo (fun i b => deterministicEncrypt sha b pw i) 0 blocks
      match storeLoop sha rnd st.top100Blocks encrypted 0
          ⟨st.networkStorage, st.blockPopularity, st.rc, [], 0⟩ with
      | .panicked m => .panicked m
      | .err e => .err e
      | .ok acc =>
          let manifest : FileManifest :=
            { fileName := fileName, fileSize := data.length, fileHash := fileHash,
              blockCount := blocks.length, connectorBlocks := acc.descs,
              createdAt := now, popularityScore := 1 }
          .ok (acc.newCount, manifest,
               { networkStorage := acc.storage, blockPopularity := acc.popularity,
                 top100Blocks := st.top100Blocks,
                 manifestRegistry := insertA st.manifestRegistry fileHash manifest,
                 rc := acc.rc })

end AnonLibrary

namespace ConnectorPrivacy

/-! ## research/models/model-connector-privacy/main.go -/

/-- A string's bytes (the selection salts "target" / "randomizer"). -/
def strBytes (s : String) : List Nat :=
  s.toList.map Char.toNat

/-- The index computed by `selectBlockWithDP`: deterministic base
`int(sha256(original||salt)[0]) % len(pool)`, plus geometric noise whose
sign comes from one random byte, wrapped with Go's truncating `%` and the
negative correction. The sampled noise magnitude and the sign byte are
oracle parameters. -/
def dpIndex (sha : List Nat → List Nat) (poolLen : Nat) (original salt : List Nat)
    (noiseMag : Int) (signByte : Nat) : Nat :=
  let base : Nat := (sha (original ++ salt)).getD 0 0 % poolLen
  let noise : Int := if signByte % 256 % 2 = 0 then -noiseMag else noiseMag
  let f : Int := Int.tmod ((base : Int) + noise) (poolLen : Int)
  (if f < 0 then f + poolLen else f).toNat

/-- `selectBlockWithDP`: return the pool entry at the noisy index. Only
called with at least two pool entries. -/
def selectBlockWithDP (sha : List Nat → List Nat) (pool : List (List Nat))
    (original salt : List Nat) (noiseMag : Int) (signByte : Nat) : List Nat :=
  pool.getD (dpIndex sha pool.length original salt noiseMag signByte) zeroHash

/-- Global state of the connector-privacy model. -/
structure CPState where
  networkStorage : List (List Nat × List Nat)
  blockPopularity : List (List Nat × Nat)
  top100Blocks : List (List Nat)
deriving DecidableEq, Repr

/-- `Store` from model-connector-privacy/main.go: with fewer than two
Top-100 entries it logs and returns 0 without storing anything; otherwise
it draws target and randomizer via two independent DP selections (salts
"target" and "randomizer"), stores the XOR connector block and bumps the
three popularity counters. -/
def Store (sha : List Nat → List Nat) (st : CPState) (b : List Nat)
    (noiseT noiseR : Int) (signT signR : Nat) : Nat × CPState :=
  if st.top100Blocks.length < 2 then (0, st)
  else
    let t := selectBlockWithDP sha st.top100Blocks b (strBytes "target") noiseT signT
    let r := selectBlockWithDP sha st.top100Blocks b (strBytes "randomizer") noiseR signR
    let conn := xorBlock b (xorBlock (lookupD st.networkStorage t zeroBlock)
                                     (lookupD st.networkStorage r zeroBlock))
    let ch := sha conn
    (1, { networkStorage := insertA st.networkStorage ch conn,
          blockPopularity := incA (incA (incA st.blockPopularity ch) t) r,
          top100Blocks := st.top100Blocks })

end ConnectorPrivacy

/-- C1: the spec demands `Decode(Encode(p, m), m) == p`; in the engine,
`deRandomizeBlock` applied to the block `generateRandomBlocks` produced
must recover the chunk. It does not: for payload `[1]` and random mask
`[1]` the stored block is `[0]` and de-randomization returns `[0] ≠ [1]`.
The mask is discarded at store time and `deRandomizeBlock` merely
truncates, contradicting its own doc comment ("recovers original data
from a randomized block"). -/
theorem c1_decode_encode_roundtrip_fails :
    RandomfsCore.generateRandomBlocks [1] 1 (fun _ => [1]) = [[0]] ∧
    RandomfsCore.deRandomizeBlock [0] 1 = GoResult.ok [0] ∧
    GoResult.ok [0] ≠ GoResult.ok [1] := by
  decide

/-! ## Helper lemmas (shared; none of these is a claim theorem) -/

theorem lookupA_insertA_self {κ ν : Type} [DecidableEq κ]
    (l : List (κ × ν)) (k : κ) (v : ν) : lookupA (insertA l k v) k = some v := by
  induction l with
  | nil => simp [insertA, lookupA]
  | cons hd tl ih =>
      obtain ⟨k', v'⟩ := hd
      by_cases hk : k' = k
      · subst hk; simp [insertA, lookupA]
      · simp [insertA, lookupA, hk, ih]

theorem keysA_insertA_of_lookup {κ ν : Type} [DecidableEq κ]
    (l : List (κ × ν)) (k : κ) (v w : ν) (h : lookupA l k = some v) :
    keysA (insertA l k w) = keysA l := by
  induction l with
  | nil => simp [lookupA] at h
  | cons hd tl ih =>
      obtain ⟨k', v'⟩ := hd
      by_cases hk : k' = k
      · subst hk; simp [insertA, keysA]
      · simp only [lookupA, if_neg hk] at h
        have hrec := ih h
        simp only [keysA] at hrec ⊢
        simp [insertA, if_neg hk, hrec]

namespace RandomfsCore

theorem mapSum_nonneg (l : List (Nat × List Nat)) : 0 ≤ mapSum l := by
  induction l with
  | nil => simp [mapSum]
  | cons hd tl ih => simp only [mapSum]; positivity

theorem mapSum_append (l₁ l₂ : List (Nat × List Nat)) :
    mapSum (l₁ ++ l₂) = mapSum l₁ + mapSum l₂ := by
  induction l₁ with
  | nil => simp [mapSum]
  | cons hd tl ih => simp [mapSum, ih]; ring

theorem lookupA_length_le_mapSum (l : List (Nat × List Nat)) (k : Nat)
    (b : List Nat) (h : lookupA l k = some b) : (b.length : Int) ≤ mapSum l := by
  induction l with
  | nil => simp [lookupA] at h
  | cons hd tl ih =>
      obtain ⟨k', v'⟩ := hd
      by_cases hk : k' = k
      · simp only [lookupA, if_pos hk] at h
        obtain rfl : v' = b := by injection h
        simp only [mapSum]
        have := mapSum_nonneg tl
        omega
      · simp only [lookupA, if_neg hk] at h
        have := ih h
        simp only [mapSum]
        have hlen : (0 : Int) ≤ (v'.length : Int) := by positivity
        omega

theorem mapSum_insertA_of_none (l : List (Nat × List Nat)) (k : Nat) (b : List Nat)
    (h : lookupA l k = none) :
    mapSum (insertA l k b) = mapSum l + b.length := by
  induction l with
  | nil => simp [insertA, mapSum]
  | cons hd tl ih =>
      obtain ⟨k', v'⟩ := hd
      by_cases hk : k' = k
      · simp [lookupA, if_pos hk] at h
      · simp only [lookupA, if_neg hk] at h
        simp only [insertA, if_neg hk, mapSum, ih h]
        ring

theorem mapSum_insertA_of_some (l : List (Nat × List Nat)) (k : Nat)
    (b old : List Nat) (h : lookupA l k = some old) :
    mapSum (insertA l k b) = mapSum l + b.length - old.length := by
  induction l with
  | nil => simp [lookupA] at h
  | cons hd tl ih =>
      obtain ⟨k', v'⟩ := hd
      by_cases hk : k' = k
      · simp only [lookupA, if_pos hk] at h
        obtain rfl : v' = old := by injection h
        simp only [insertA, if_pos hk, mapSum]
        ring
      · simp only [lookupA, if_neg hk] at h
        simp only [insertA, if_neg hk, mapSum, ih h]
        ring

theorem evictLoop_spec (l : List (Nat × List Nat)) (size target : Int) :
    (evictLoop l size target).2
        = size - mapSum l + mapSum (evictLoop l size target).1 ∧
    ((evictLoop l size target).2 ≤ target ∨ (evictLoop l size target).1 = []) ∧
    ∃ gone, l = gone ++ (evictLoop l size target).1 := by
  induction l generalizing size with
  | nil =>
      refine ⟨by simp [evictLoop, mapSum], Or.inr rfl, ⟨[], by simp [evictLoop]⟩⟩
  | cons hd tl ih =>
      obtain ⟨k, b⟩ := hd
      simp only [evictLoop]
      by_cases hstop : size - (b.length : Int) ≤ target
      · simp only [if_pos hstop]
        refine ⟨?_, Or.inl hstop, ⟨[(k, b)], by simp⟩⟩
        simp only [mapSum]
        omega
      · simp only [if_neg hstop]
        obtain ⟨ih1, ih2, gone, ihg⟩ := ih (size - b.length)
        refine ⟨?_, ih2, ⟨(k, b) :: gone, by simp [← ihg]⟩⟩
        simp only [mapSum]
        omega

/-- `cachePut` unfolded into its two explicit outcomes. -/
theorem cachePut_eq (c : BlockCache) (h : Nat) (b : List Nat) :
    cachePut c h b =
      if c.maxSize < c.currentSize + b.length
      then evictOldestBlocks ⟨insertA c.blocks h b, c.maxSize, c.currentSize + b.length⟩
      else ⟨insertA c.blocks h b, c.maxSize, c.currentSize + b.length⟩ := rfl

/-- What one `evictOldestBlocks` call guarantees: capacity untouched, the
gap between the size counter and the map total preserved, the final size
at or below `maxSize / 2` unless the map was exhausted, and the removed
entries a front segment of the iteration order. -/
theorem evictOldest_spec (c : BlockCache) :
    (evictOldestBlocks c).maxSize = c.maxSize ∧
    (evictOldestBlocks c).currentSize - mapSum (evictOldestBlocks c).blocks
        = c.currentSize - mapSum c.blocks ∧
    ((evictOldestBlocks c).currentSize ≤ c.maxSize / 2 ∨
      (evictOldestBlocks c).blocks = []) ∧
    ∃ gone, c.blocks = gone ++ (evictOldestBlocks c).blocks := by
  obtain ⟨h1, h2, h3⟩ := evictLoop_spec c.blocks c.currentSize (c.maxSize / 2)
  exact ⟨rfl, by simp only [evictOldestBlocks]; omega, h2, h3⟩

/-- The weak cache invariant: the size counter is at least the map total. -/
def WeakInv (c : BlockCache) : Prop :=
  mapSum c.blocks ≤ c.currentSize

/-- The full cache invariant at capacity `ms`. -/
def CacheInv (ms : Int) (c : BlockCache) : Prop :=
  c.maxSize = ms ∧ mapSum c.blocks ≤ c.currentSize ∧ c.currentSize ≤ ms

theorem cachePut_weakInv (c : BlockCache) (h : Nat) (b : List Nat)
    (hc : WeakInv c) : WeakInv (cachePut c h b) := by
  unfold WeakInv at hc ⊢
  have hins : mapSum (insertA c.blocks h b) ≤ c.currentSize + b.length := by
    rcases hl : lookupA c.blocks h with _ | old
    · rw [mapSum_insertA_of_none c.blocks h b hl]; omega
    · rw [mapSum_insertA_of_some c.blocks h b old hl]
      have : (0 : Int) ≤ old.length := by positivity
      omega
  rw [cachePut_eq]
  by_cases hover : c.maxSize < c.currentSize + b.length
  · rw [if_pos hover]
    obtain ⟨_, hgap, _, _⟩ :=
      evictOldest_spec ⟨insertA c.blocks h b, c.maxSize, c.currentSize + b.length⟩
    simp only at hgap
    omega
  · rw [if_neg hover]
    exact hins

theorem cachePut_maxSize (c : BlockCache) (h : Nat) (b : List Nat) :
    (cachePut c h b).maxSize = c.maxSize := by
  rw [cachePut_eq]
  by_cases hover : c.maxSize < c.currentSize + b.length
  · rw [if_pos hover]
    exact (evictOldest_spec _).1
  · rw [if_neg hover]

theorem cachePut_inv (ms : Int) (c : BlockCache) (h : Nat) (b : List Nat)
    (hms : 0 ≤ ms) (hc : CacheInv ms c) : CacheInv ms (cachePut c h b) := by
  obtain ⟨hmax, hweak, hbound⟩ := hc
  refine ⟨by rw [cachePut_maxSize, hmax],
          cachePut_weakInv c h b hweak, ?_⟩
  rw [cachePut_eq]
  by_cases hover : c.maxSize < c.currentSize + b.length
  · rw [if_pos hover]
    obtain ⟨_, hgap, hstop, _⟩ :=
      evictOldest_spec ⟨insertA c.blocks h b, c.maxSize, c.currentSize + b.length⟩
    simp only at hgap hstop
    set d := evictOldestBlocks ⟨insertA c.blocks h b, c.maxSize, c.currentSize + b.length⟩
      with hd
    rcases hstop with hstop | hstop
    · -- stopped at the target maxSize / 2, which is at most the capacity
      have htgt : c.maxSize / 2 ≤ ms := by omega
      omega
    · -- map exhausted: only the gap (size counter minus map total) remains
      rw [hstop] at hgap
      simp only [mapSum] at hgap
      have hnn := mapSum_nonneg (insertA c.blocks h b)
      rcases hl : lookupA c.blocks h with _ | old
      · rw [mapSum_insertA_of_none c.blocks h b hl] at hgap
        have := mapSum_nonneg c.blocks
        omega
      · rw [mapSum_insertA_of_some c.blocks h b old hl] at hgap
        have := lookupA_length_le_mapSum c.blocks h old hl
        omega
  · rw [if_neg hover]
    simp only
    omega

theorem runCache_inv (hf : List Nat → Nat) (ms : Int) (ops : List CacheOp)
    (c : BlockCache) (hms : 0 ≤ ms) (hc : CacheInv ms c) :
    CacheInv ms (runCache hf c ops) := by
  induction ops generalizing c with
  | nil => exact hc
  | cons op rest ih =>
      cases op with
      | put b => exact ih _ (cachePut_inv ms c (hf b) b hms hc)
      | get h => exact ih _ hc

theorem runCache_weakInv (hf : List Nat → Nat) (ops : List CacheOp)
    (c : BlockCache) (hc : WeakInv c) : WeakInv (runCache hf c ops) := by
  induction ops generalizing c with
  | nil => exact hc
  | cons op rest ih =>
      cases op with
      | put b => exact ih _ (cachePut_weakInv c (hf b) b hc)
      | get h => exact ih _ hc

theorem cachePut_fresh_exact (c : BlockCache) (h : Nat) (b : List Nat)
    (hl : lookupA c.blocks h = none) (hc : mapSum c.blocks = c.currentSize) :
    mapSum (cachePut c h b).blocks = (cachePut c h b).currentSize := by
  have hins : mapSum (insertA c.blocks h b) = c.currentSize + b.length := by
    rw [mapSum_insertA_of_none c.blocks h b hl]; omega
  rw [cachePut_eq]
  by_cases hover : c.maxSize < c.currentSize + b.length
  · rw [if_pos hover]
    obtain ⟨_, hgap, _, _⟩ :=
      evictOldest_spec ⟨insertA c.blocks h b, c.maxSize, c.currentSize + b.length⟩
    simp only at hgap
    omega
  · rw [if_neg hover]
    exact hins

theorem runCache_fresh_exact (hf : List Nat → Nat) (ops : List CacheOp)
    (c : BlockCache) (hfresh : freshPuts hf c ops = true)
    (hc : mapSum c.blocks = c.currentSize) :
    mapSum (runCache hf c ops).blocks = (runCache hf c ops).currentSize := by
  induction ops generalizing c with
  | nil => exact hc
  | cons op rest ih =>
      cases op with
      | put b =>
          rw [freshPuts] at hfresh
          simp only [Bool.and_eq_true, Option.isNone_iff_eq_none] at hfresh
          exact ih _ hfresh.2 (cachePut_fresh_exact c (hf b) b hfresh.1 hc)
      | get h =>
          rw [freshPuts] at hfresh
          exact ih _ hfresh hc

end RandomfsCore

/-! ## Claim theorems: BlockCache (C6, C7, C10) -/

/-- C6: after any sequence of block put/get operations starting from the
freshly created cache, the cache's size counter never exceeds the
configured capacity; an insertion that overshoots triggers eviction
before `storeBlock` returns, restoring the bound. -/
theorem c6_cache_size_bounded (hf : List Nat → Nat) (ops : List RandomfsCore.CacheOp)
    (ms : Int) (hms : 0 ≤ ms) :
    (RandomfsCore.runCache hf (RandomfsCore.emptyCache ms) ops).currentSize ≤ ms := by
  have hinit : RandomfsCore.CacheInv ms (RandomfsCore.emptyCache ms) :=
    ⟨rfl, by simp [RandomfsCore.emptyCache, RandomfsCore.mapSum], hms⟩
  exact (RandomfsCore.runCache_inv hf ms ops _ hms hinit).2.2

/-- Witness for C6 at a concrete run: three stores of 3-byte blocks into a
capacity-5 cache (the second and third force evictions). -/
theorem c6_cache_size_bounded_witness :
    (RandomfsCore.runCache List.length (RandomfsCore.emptyCache 5)
      [RandomfsCore.CacheOp.put [1, 1, 1], RandomfsCore.CacheOp.put [2, 2, 2],
       RandomfsCore.CacheOp.put [3, 3, 3]]).currentSize ≤ 5 :=
  c6_cache_size_bounded List.length
    [RandomfsCore.CacheOp.put [1, 1, 1], RandomfsCore.CacheOp.put [2, 2, 2],
     RandomfsCore.CacheOp.put [3, 3, 3]] 5 (by decide)

/-- C7 counterexample: the run `put B (4 bytes); put A (1 byte); get B;
put C (2 bytes)` on a capacity-6 cache evicts `B` — the entry whose ghost
last-access time is 2 — while keeping `A`, whose last access time is 1,
strictly older. Eviction therefore does not remove the least-recently-used
entries (it walks the map in iteration order), refuting the claim. -/
theorem c7_lru_counterexample :
    lookupA (RandomfsCore.runLRU List.length (RandomfsCore.emptyLRU 6)
      [RandomfsCore.CacheOp.put [9, 9, 9, 9], RandomfsCore.CacheOp.put [5],
       RandomfsCore.CacheOp.get 4, RandomfsCore.CacheOp.put [6, 6]]).cache.blocks 4
      = none ∧
    lookupA (RandomfsCore.runLRU List.length (RandomfsCore.emptyLRU 6)
      [RandomfsCore.CacheOp.put [9, 9, 9, 9], RandomfsCore.CacheOp.put [5],
       RandomfsCore.CacheOp.get 4, RandomfsCore.CacheOp.put [6, 6]]).cache.blocks 1
      = some [5] ∧
    lookupA (RandomfsCore.runLRU List.length (RandomfsCore.emptyLRU 6)
      [RandomfsCore.CacheOp.put [9, 9, 9, 9], RandomfsCore.CacheOp.put [5],
       RandomfsCore.CacheOp.get 4, RandomfsCore.CacheOp.put [6, 6]]).access 4
      = some 2 ∧
    lookupA (RandomfsCore.runLRU List.length (RandomfsCore.emptyLRU 6)
      [RandomfsCore.CacheOp.put [9, 9, 9, 9], RandomfsCore.CacheOp.put [5],
       RandomfsCore.CacheOp.get 4, RandomfsCore.CacheOp.put [6, 6]]).access 1
      = some 1 ∧
    (1 : Nat) < 2 := by
  decide

/-- C7 amended: when the cache exceeds capacity, `evictOldestBlocks`
removes a front segment of the map's iteration order (not the
least-recently-used entries — no recency data exists), subtracting
exactly the removed bytes, and stops only once the size is at most
`maxSize / 2` (a 50% target) or the map is empty. -/
theorem c7_eviction_amended (c : RandomfsCore.BlockCache) :
    ∃ gone, c.blocks = gone ++ (RandomfsCore.evictOldestBlocks c).blocks ∧
      (RandomfsCore.evictOldestBlocks c).currentSize
          = c.currentSize - RandomfsCore.mapSum gone ∧
      ((RandomfsCore.evictOldestBlocks c).currentSize ≤ c.maxSize / 2 ∨
        (RandomfsCore.evictOldestBlocks c).blocks = []) := by
  obtain ⟨_, hgap, hstop, gone, hgone⟩ := RandomfsCore.evictOldest_spec c
  refine ⟨gone, hgone, ?_, hstop⟩
  have := RandomfsCore.mapSum_append gone (RandomfsCore.evictOldestBlocks c).blocks
  rw [← hgone] at this
  omega

/-- Witness for C7 amended at a concrete over-full cache. -/
theorem c7_eviction_amended_witness :
    ∃ gone,
      (RandomfsCore.BlockCache.mk [(4, [9, 9, 9, 9]), (1, [5]), (2, [6, 6])] 6 7).blocks
          = gone ++ (RandomfsCore.evictOldestBlocks
              (RandomfsCore.BlockCache.mk [(4, [9, 9, 9, 9]), (1, [5]), (2, [6, 6])] 6 7)).blocks ∧
      (RandomfsCore.evictOldestBlocks
          (RandomfsCore.BlockCache.mk [(4, [9, 9, 9, 9]), (1, [5]), (2, [6, 6])] 6 7)).currentSize
          = (RandomfsCore.BlockCache.mk [(4, [9, 9, 9, 9]), (1, [5]), (2, [6, 6])] 6 7).currentSize
            - RandomfsCore.mapSum gone ∧
      ((RandomfsCore.evictOldestBlocks
          (RandomfsCore.BlockCache.mk [(4, [9, 9, 9, 9]), (1, [5]), (2, [6, 6])] 6 7)).currentSize
          ≤ (RandomfsCore.BlockCache.mk [(4, [9, 9, 9, 9]), (1, [5]), (2, [6, 6])] 6 7).maxSize / 2 ∨
        (RandomfsCore.evictOldestBlocks
          (RandomfsCore.BlockCache.mk [(4, [9, 9, 9, 9]), (1, [5]), (2, [6, 6])] 6 7)).blocks = []) :=
  c7_eviction_amended (RandomfsCore.BlockCache.mk [(4, [9, 9, 9, 9]), (1, [5]), (2, [6, 6])] 6 7)

/-- C10 counterexample: storing the same 1-byte block twice (same content
hash) leaves one map entry totalling 1 byte, but `currentSize` is 2 — the
overwrite added the length again without replacing the old contribution. -/
theorem c10_size_counter_counterexample :
    (RandomfsCore.runCache List.length (RandomfsCore.emptyCache 100)
      [RandomfsCore.CacheOp.put [7], RandomfsCore.CacheOp.put [7]]).currentSize = 2 ∧
    RandomfsCore.mapSum (RandomfsCore.runCache List.length (RandomfsCore.emptyCache 100)
      [RandomfsCore.CacheOp.put [7], RandomfsCore.CacheOp.put [7]]).blocks = 1 ∧
    (2 : Int) ≠ 1 := by
  decide

/-- C10 amended: after any sequence of put/get operations from the fresh
cache, `currentSize` is at least the sum of the byte lengths of the
blocks held in the map — unconditionally, duplicate stores included; it
equals that sum whenever no `put` ever stored a hash already present;
and a `put` whose hash is already in the map (its entry holding `old`)
adds the new block length to `currentSize` while merely replacing the
map entry, growing the counter-minus-total gap by exactly `old`'s
length — so a duplicate store of a nonempty block leaves the counter
strictly above the map total. -/
theorem c10_size_counter_amended (hf : List Nat → Nat)
    (ops : List RandomfsCore.CacheOp) (ms : Int) (c : RandomfsCore.BlockCache)
    (b old : List Nat) :
    RandomfsCore.mapSum (RandomfsCore.runCache hf (RandomfsCore.emptyCache ms) ops).blocks
        ≤ (RandomfsCore.runCache hf (RandomfsCore.emptyCache ms) ops).currentSize ∧
    (RandomfsCore.freshPuts hf (RandomfsCore.emptyCache ms) ops = true →
      RandomfsCore.mapSum (RandomfsCore.runCache hf (RandomfsCore.emptyCache ms) ops).blocks
        = (RandomfsCore.runCache hf (RandomfsCore.emptyCache ms) ops).currentSize) ∧
    (lookupA c.blocks (hf b) = some old →
      (RandomfsCore.cachePut c (hf b) b).currentSize
          - RandomfsCore.mapSum (RandomfsCore.cachePut c (hf b) b).blocks
        = c.currentSize - RandomfsCore.mapSum c.blocks + old.length) := by
  refine ⟨?_, ?_, ?_⟩
  · exact RandomfsCore.runCache_weakInv hf ops _
      (by simp [RandomfsCore.emptyCache, RandomfsCore.WeakInv, RandomfsCore.mapSum])
  · intro hfresh
    exact RandomfsCore.runCache_fresh_exact hf ops _ hfresh
      (by simp [RandomfsCore.emptyCache, RandomfsCore.mapSum])
  · intro hl
    rw [RandomfsCore.cachePut_eq]
    by_cases hover : c.maxSize < c.currentSize + b.length
    · rw [if_pos hover]
      obtain ⟨_, hgap, _, _⟩ := RandomfsCore.evictOldest_spec
        ⟨insertA c.blocks (hf b) b, c.maxSize, c.currentSize + b.length⟩
      simp only at hgap
      rw [RandomfsCore.mapSum_insertA_of_some c.blocks (hf b) b old hl] at hgap
      omega
    · rw [if_neg hover]
      simp only
      rw [RandomfsCore.mapSum_insertA_of_some c.blocks (hf b) b old hl]
      ring

/-- Witness for C10 amended: two distinct fresh blocks for the run
conjuncts, and a duplicate store of the 1-byte block `[7]` into a cache
already holding it (with an already-inflated counter) for the gap
conjunct. -/
theorem c10_size_counter_amended_witness :
    RandomfsCore.mapSum (RandomfsCore.runCache List.length (RandomfsCore.emptyCache 100)
      [RandomfsCore.CacheOp.put [7], RandomfsCore.CacheOp.put [8, 8]]).blocks
        ≤ (RandomfsCore.runCache List.length (RandomfsCore.emptyCache 100)
      [RandomfsCore.CacheOp.put [7], RandomfsCore.CacheOp.put [8, 8]]).currentSize ∧
    RandomfsCore.mapSum (RandomfsCore.runCache List.length (RandomfsCore.emptyCache 100)
      [RandomfsCore.CacheOp.put [7], RandomfsCore.CacheOp.put [8, 8]]).blocks
        = (RandomfsCore.runCache List.length (RandomfsCore.emptyCache 100)
      [RandomfsCore.CacheOp.put [7], RandomfsCore.CacheOp.put [8, 8]]).currentSize ∧
    (RandomfsCore.cachePut (RandomfsCore.BlockCache.mk [(1, [7])] 100 2)
        (List.length [7]) [7]).currentSize
        - RandomfsCore.mapSum (RandomfsCore.cachePut
            (RandomfsCore.BlockCache.mk [(1, [7])] 100 2) (List.length [7]) [7]).blocks
      = (RandomfsCore.BlockCache.mk [(1, [7])] 100 2).currentSize
          - RandomfsCore.mapSum (RandomfsCore.BlockCache.mk [(1, [7])] 100 2).blocks
          + ([7] : List Nat).length :=
  ⟨(c10_size_counter_amended List.length
      [RandomfsCore.CacheOp.put [7], RandomfsCore.CacheOp.put [8, 8]] 100
      (RandomfsCore.BlockCache.mk [(1, [7])] 100 2) [7] [7]).1,
   (c10_size_counter_amended List.length
      [RandomfsCore.CacheOp.put [7], RandomfsCore.CacheOp.put [8, 8]] 100
      (RandomfsCore.BlockCache.mk [(1, [7])] 100 2) [7] [7]).2.1 (by decide),
   (c10_size_counter_amended List.length
      [RandomfsCore.CacheOp.put [7], RandomfsCore.CacheOp.put [8, 8]] 100
      (RandomfsCore.BlockCache.mk [(1, [7])] 100 2) [7] [7]).2.2 (by decide)⟩

/-! ## Claim theorems: mask selection (C5, C8) -/

/-- C5 counterexample: on the empty pool, `selectPopularBlocks` panics with
"Top 100 pool not populated"; it does not return a `PoolUnderflow` error
to the caller. -/
theorem c5_pool_underflow_counterexample :
    (AnonLibrary.selectPopularBlocks [] (fun _ => 0) 0).1
        = GoResult.panicked "Top 100 pool not populated" ∧
    (AnonLibrary.selectPopularBlocks [] (fun _ => 0) 0).1
        ≠ GoResult.err "PoolUnderflow" := by
  decide

/-- C5 amended: with fewer than two distinct pool entries (in particular
the empty pool), the anonymous-library selection panics with "Top 100
pool not populated", and the connector-privacy `Store` returns 0 new
blocks with the state unchanged; neither path produces a `PoolUnderflow`
error or falls back to fresh high-entropy blocks. -/
theorem c5_pool_underflow_amended (pool : List (List Nat)) (rnd : Nat → Nat)
    (rc : Nat) (hpool : pool.length < 2) (sha : List Nat → List Nat)
    (st : ConnectorPrivacy.CPState) (b : List Nat) (noiseT noiseR : Int)
    (signT signR : Nat) (hst : st.top100Blocks.length < 2) :
    (AnonLibrary.selectPopularBlocks pool rnd rc).1
        = GoResult.panicked "Top 100 pool not populated" ∧
    ConnectorPrivacy.Store sha st b noiseT noiseR signT signR = (0, st) := by
  constructor
  · simp [AnonLibrary.selectPopularBlocks, hpool]
  · simp [ConnectorPrivacy.Store, hst]

/-- Witness for C5 amended: empty selection pool, empty connector state. -/
theorem c5_pool_underflow_amended_witness :
    (AnonLibrary.selectPopularBlocks [] (fun _ => 1) 3).1
        = GoResult.panicked "Top 100 pool not populated" ∧
    ConnectorPrivacy.Store (fun _ => [0]) (ConnectorPrivacy.CPState.mk [] [] [])
        [1, 2] 5 7 0 1 = (0, ConnectorPrivacy.CPState.mk [] [] []) :=
  c5_pool_underflow_amended [] (fun _ => 1) 3 (by decide) (fun _ => [0])
    (ConnectorPrivacy.CPState.mk [] [] []) [1, 2] 5 7 0 1 (by decide)

/-- C8 counterexample: with pool `[[1], [2]]` and a random stream of
zeros, both draws pick index 0, so target and randomizer are the same
hash `[1]` — the two returned block hashes are not always distinct, and
no retry happens. -/
theorem c8_masks_distinct_counterexample :
    (AnonLibrary.selectPopularBlocks [[1], [2]] (fun _ => 0) 0).1
        = GoResult.ok ([1], [1]) ∧
    (([1], [1]) : List Nat × List Nat).1 = (([1], [1]) : List Nat × List Nat).2 := by
  decide

/-- C8 amended: both selectors draw their two masks independently with no
distinctness check or retry. The natural-pool selection returns exactly
the pool entries at the two independently drawn indices (so the two
hashes coincide whenever the indices do), and the weighted-DP selection
likewise returns the pool entry at its noisy index for each salt with no
cross-check between "target" and "randomizer". -/
theorem c8_masks_independent_amended (pool : List (List Nat)) (rnd : Nat → Nat)
    (rc : Nat) (hpool : 2 ≤ pool.length) (sha : List Nat → List Nat)
    (b : List Nat) (noiseMag : Int) (signByte : Nat) :
    (AnonLibrary.selectPopularBlocks pool rnd rc).1
        = GoResult.ok
            (pool.getD (AnonLibrary.randInt rnd rc pool.length) zeroHash,
             pool.getD (AnonLibrary.randInt rnd (rc + 1) pool.length) zeroHash) ∧
    (AnonLibrary.randInt rnd rc pool.length
        = AnonLibrary.randInt rnd (rc + 1) pool.length →
      (AnonLibrary.selectPopularBlocks pool rnd rc).1
          = GoResult.ok
              (pool.getD (AnonLibrary.randInt rnd rc pool.length) zeroHash,
               pool.getD (AnonLibrary.randInt rnd rc pool.length) zeroHash)) ∧
    ConnectorPrivacy.selectBlockWithDP sha pool b (ConnectorPrivacy.strBytes "target")
        noiseMag signByte
      = pool.getD (ConnectorPrivacy.dpIndex sha pool.length b
          (ConnectorPrivacy.strBytes "target") noiseMag signByte) zeroHash := by
  have hnot : ¬ pool.length < 2 := by omega
  refine ⟨?_, ?_, rfl⟩
  · simp [AnonLibrary.selectPopularBlocks, hnot]
  · intro heq
    simp [AnonLibrary.selectPopularBlocks, hnot, heq]

/-- Witness for C8 amended: the two-entry pool with the all-zero random
stream. -/
theorem c8_masks_independent_amended_witness :
    (AnonLibrary.selectPopularBlocks [[1], [2]] (fun _ => 0) 4).1
        = GoResult.ok
            ([[1], [2]].getD (AnonLibrary.randInt (fun _ => 0) 4 2) zeroHash,
             [[1], [2]].getD (AnonLibrary.randInt (fun _ => 0) 5 2) zeroHash) ∧
    (AnonLibrary.randInt (fun _ => 0) 4 2 = AnonLibrary.randInt (fun _ => 0) 5 2 →
      (AnonLibrary.selectPopularBlocks [[1], [2]] (fun _ => 0) 4).1
          = GoResult.ok
              ([[1], [2]].getD (AnonLibrary.randInt (fun _ => 0) 4 2) zeroHash,
               [[1], [2]].getD (AnonLibrary.randInt (fun _ => 0) 4 2) zeroHash)) ∧
    ConnectorPrivacy.selectBlockWithDP (fun _ => [3]) [[1], [2]] [9]
        (ConnectorPrivacy.strBytes "target") 1 0
      = [[1], [2]].getD (ConnectorPrivacy.dpIndex (fun _ => [3]) 2 [9]
          (ConnectorPrivacy.strBytes "target") 1 0) zeroHash :=
  c8_masks_independent_amended [[1], [2]] (fun _ => 0) 4 (by decide)
    (fun _ => [3]) [9] 1 0

/-! ## Claim theorem: ParseRandomURL (C9) -/

/-- C9: `ParseRandomURL` is not panic-free. The guard admits a path of
exactly 4 slash-separated segments (it only rejects fewer than 4), but
the function then reads segment index 4, which needs at least 5 segments:
on `rd://randomfs/v4/10/file/1700000000` it panics with an index out of
range. A 5-segment URL of the same shape parses normally, showing the
panic is exactly the off-by-one of the guard. -/
theorem c9_parse_random_url_panics :
    RandomfsCore.ParseRandomURL "rd://randomfs/v4/10/file/1700000000"
        = GoResult.panicked "index out of range" ∧
    RandomfsCore.ParseRandomURL "rd://randomfs/v4/10/file/1700000000/QmAbc"
        = GoResult.ok
            { scheme := "rd", host := "randomfs", version := "v4",
              fileName := "file", fileSize := 10, repHash := "QmAbc",
              timestamp := 1700000000 } := by
  decide

/-! ## Claim theorem: StoreFile/RetrieveFile round trip (C2) -/

set_option maxRecDepth 100000

set_option maxHeartbeats 4000000

/-- C2: storing the 10-byte file "HelloWorld" (block size tier 1024) does
produce a single block hash and retrieval does trim to the recorded
fileSize of 10 — but the returned bytes are NOT "HelloWorld". With the
random mask whose first byte is 1, retrieval returns byte 73 where the
original had 72 (the letter H): `generateRandomBlocks` XORed the chunk
with a mask that was never stored, and `RetrieveFile`/`deRandomizeBlock`
never undo it. The round trip loses the file contents. -/
theorem c2_store_retrieve_not_roundtrip :
    RandomfsCore.RetrieveFile
        (RandomfsCore.StoreFile List.length (fun _ => 7)
          ⟨[], [], RandomfsCore.emptyCache 1000000⟩ "HelloWorld"
          [72, 101, 108, 108, 111, 87, 111, 114, 108, 100] "text/plain" 1700000000
          (fun _ => 1 :: List.replicate 1023 0)).2 7
      = GoResult.ok
          ([73, 101, 108, 108, 111, 87, 111, 114, 108, 100],
           { fileName := "HelloWorld", fileSize := 10, blockHashes := [1024],
             blockSize := 1024, timestamp := 1700000000,
             contentType := "text/plain", version := "v4" }) ∧
    ([73, 101, 108, 108, 111, 87, 111, 114, 108, 100] : List Nat).length = 10 ∧
    ([73, 101, 108, 108, 111, 87, 111, 114, 108, 100] : List Nat)
      ≠ [72, 101, 108, 108, 111, 87, 111, 114, 108, 100] := by
  decide

/-! ## Claim theorem: perfect deduplication (C3) -/

/-- C3: if a first `StoreFile` of fresh content succeeds, that manifest is
registered with `popularityScore` 1, and a second `StoreFile` of the same
bytes and password returns `newBlocksStored = 0` and the same manifest
with `popularityScore` bumped to exactly 2; the registry gains no new
key, and nothing else in the state changes. -/
theorem c3_perfect_dedup (sha : List Nat → List Nat) (rnd : Nat → Nat)
    (st : AnonLibrary.AMLState) (fn1 fn2 : String) (data pw : List Nat)
    (now1 now2 n1 : Nat) (m1 : AnonLibrary.FileManifest)
    (st1 : AnonLibrary.AMLState)
    (hfresh : lookupA st.manifestRegistry (sha data) = none)
    (hstore : AnonLibrary.StoreFile sha rnd st fn1 data pw now1
        = GoResult.ok (n1, m1, st1)) :
    m1.popularityScore = 1 ∧
    AnonLibrary.StoreFile sha rnd st1 fn2 data pw now2
      = GoResult.ok (0, { m1 with popularityScore := 2 },
          { st1 with
            manifestRegistry := insertA st1.manifestRegistry (sha data) ({ m1 with popularityScore := 2 }) }) ∧
    keysA (insertA st1.manifestRegistry (sha data)
        ({ m1 with popularityScore := 2 }))
      = keysA st1.manifestRegistry := by
  simp only [AnonLibrary.StoreFile, hfresh] at hstore
  split at hstore
  · exact absurd hstore (by simp)
  · exact absurd hstore (by simp)
  · simp only [GoResult.ok.injEq, Prod.mk.injEq] at hstore
    obtain ⟨hn, hm, hst⟩ := hstore
    subst hm
    subst hst
    refine ⟨rfl, ?_, ?_⟩
    · simp [AnonLibrary.StoreFile, lookupA_insertA_self]
    · exact keysA_insertA_of_lookup _ _ _ _ (lookupA_insertA_self _ _ _)

/-- Witness for C3: store the empty file twice from the empty state with a
constant digest function; the second store returns 0 new blocks and the
manifest at popularity 2. -/
theorem c3_perfect_dedup_witness :
    (AnonLibrary.FileManifest.mk "a" 0 [0] 0 [] 5 1).popularityScore = 1 ∧
    AnonLibrary.StoreFile (fun _ => [0]) (fun _ => 0)
        (AnonLibrary.AMLState.mk [] [] []
          [([0], AnonLibrary.FileManifest.mk "a" 0 [0] 0 [] 5 1)] 0) "b" [] [] 6
      = GoResult.ok (0, AnonLibrary.FileManifest.mk "a" 0 [0] 0 [] 5 2,
          AnonLibrary.AMLState.mk [] [] []
            [([0], AnonLibrary.FileManifest.mk "a" 0 [0] 0 [] 5 2)] 0) ∧
    keysA [(([0] : List Nat), AnonLibrary.FileManifest.mk "a" 0 [0] 0 [] 5 2)]
      = keysA [(([0] : List Nat), AnonLibrary.FileManifest.mk "a" 0 [0] 0 [] 5 1)] :=
  c3_perfect_dedup (fun _ => [0]) (fun _ => 0)
    (AnonLibrary.AMLState.mk [] [] [] [] 0) "a" "b" [] [] 5 6 0
    (AnonLibrary.FileManifest.mk "a" 0 [0] 0 [] 5 1)
    (AnonLibrary.AMLState.mk [] [] []
      [([0], AnonLibrary.FileManifest.mk "a" 0 [0] 0 [] 5 1)] 0)
    (by decide) (by decide)

/-! ## Claim theorem: Top-100 mask pool (C4) -/

/-- C4: the pool `updateTop100` rebuilds never holds more than 100 hashes
(so the bound survives any sequence of popularity updates — nothing else
ever writes the pool); its size is exactly `min 100 n`; every pool entry
comes from the popularity map — all of this for every popularity map,
ties included, so the bound holds after any sequence of updates; and
with pairwise-distinct hashes and pairwise-distinct popularity counts
(the 150-distinct-increasing scenario) every retained entry strictly
out-ranks every dropped one — the pool is exactly the 100
highest-popularity entries. -/
theorem c4_top100_bound_and_content (l : List (Nat × Nat)) :
    (updateTop100 l).length ≤ 100 ∧
    (updateTop100 l).length = min 100 l.length ∧
    (∀ h ∈ updateTop100 l, h ∈ l.map Prod.fst) ∧
    ((l.map Prod.fst).Nodup → (l.map Prod.snd).Nodup →
      ∀ p ∈ l, ∀ q ∈ l, p.1 ∈ updateTop100 l → q.1 ∉ updateTop100 l →
        q.2 < p.2) := by
  have hperm : List.Perm (l.insertionSort popGE) l := List.perm_insertionSort _ _
  have hsorted : List.Sorted popGE (l.insertionSort popGE) :=
    List.sorted_insertionSort _ _
  have hlen : (l.insertionSort popGE).length = l.length := hperm.length_eq
  refine ⟨?_, ?_, ?_, ?_⟩
  · simp only [updateTop100, List.length_map, List.length_take]
    omega
  · simp only [updateTop100, List.length_map, List.length_take, hlen]
  · intro h hmem
    obtain ⟨p, hpt, rfl⟩ := List.mem_map.mp hmem
    exact List.mem_map_of_mem Prod.fst
      (hperm.mem_iff.mp (List.take_subset _ _ hpt))
  · intro hkeys hpops p hp q hq hpin hqnot
    obtain ⟨p', hp't, hp'e⟩ := List.mem_map.mp hpin
    have hp'l : p' ∈ l := hperm.mem_iff.mp (List.take_subset _ _ hp't)
    have hp'p : p' = p := List.inj_on_of_nodup_map hkeys hp'l hp hp'e
    subst hp'p
    have hq_s : q ∈ l.insertionSort popGE := hperm.mem_iff.mpr hq
    have hq_nt : q ∉ (l.insertionSort popGE).take 100 := by
      intro hmem
      exact hqnot (List.mem_map_of_mem Prod.fst hmem)
    have hq_drop : q ∈ (l.insertionSort popGE).drop 100 := by
      have hsplit := List.take_append_drop 100 (l.insertionSort popGE)
      rcases List.mem_append.mp (hsplit ▸ hq_s) with hmem | hmem
      · exact absurd hmem hq_nt
      · exact hmem
    have hrel : popGE p' q := by
      have hpair : List.Pairwise popGE
          ((l.insertionSort popGE).take 100 ++ (l.insertionSort popGE).drop 100) := by
        rw [List.take_append_drop]
        exact hsorted
      exact (List.pairwise_append.mp hpair).2.2 p' hp't q hq_drop
    have hne : q ≠ p' := by
      rintro rfl
      exact hq_nt hp't
    have hsnd : q.2 ≠ p'.2 := by
      intro he
      exact hne (List.inj_on_of_nodup_map hpops hq hp'l he)
    have : q.2 ≤ p'.2 := hrel
    omega

/-- Witness for C4: the 150-entry popularity map with hashes `0..149` and
strictly increasing popularity `i`, as in the spec scenario. -/
theorem c4_top100_bound_and_content_witness :
    (updateTop100 ((List.range 150).map fun i => (i, i))).length ≤ 100 ∧
    (updateTop100 ((List.range 150).map fun i => (i, i))).length
        = min 100 ((List.range 150).map fun i => (i, i)).length ∧
    (∀ h ∈ updateTop100 ((List.range 150).map fun i => (i, i)),
      h ∈ ((List.range 150).map fun i => (i, i)).map Prod.fst) ∧
    (∀ p ∈ (List.range 150).map fun i => (i, i),
      ∀ q ∈ (List.range 150).map fun i => (i, i),
        p.1 ∈ updateTop100 ((List.range 150).map fun i => (i, i)) →
        q.1 ∉ updateTop100 ((List.range 150).map fun i => (i, i)) →
        q.2 < p.2) :=
  ⟨(c4_top100_bound_and_content ((List.range 150).map fun i => (i, i))).1,
   (c4_top100_bound_and_content ((List.range 150).map fun i => (i, i))).2.1,
   (c4_top100_bound_and_content ((List.range 150).map fun i => (i, i))).2.2.1,
   (c4_top100_bound_and_content ((List.range 150).map fun i => (i, i))).2.2.2
     (by simp [List.map_map]; exact (List.nodup_range 150).map fun a b h => h)
     (by simp [List.map_map]; exact (List.nodup_range 150).map fun a b h => h)⟩
